import Mathlib

/-!
Shallow embedding of the QERSUI creation wizard (src/creation.rs).

The embedding keeps the Rust names where Lean allows it.  The GUI widget
type `State<T>` of the combo boxes only carries the list of options that
matters to the selection logic, so it is modelled as a plain list; `PathBuf`
is modelled as a `String`; the `f64` RAM amount is modelled as `ℚ` (it is
only ever stored and compared, never subjected to rounding by this code);
`usize` CPU cores are modelled as `Nat`.  Host-environment reads
(`std::env::consts::ARCH`, `std::env::current_dir`,
`QuickgetInstance::get_recommended_ram` / `get_recommended_cpu_cores`) are
threaded through an explicit `Env` record.
-/

namespace QERSUI

/-- `quickemu::config::Arch` restricted to the three variants the code uses. -/
inductive Arch where
  | x86_64
  | aarch64
  | riscv64
deriving DecidableEq

/-- The fields of `quickget_core::data_structures::Config` that creation.rs
reads: `release`, `edition` and `arch`. -/
structure Config where
  release : Option String
  edition : Option String
  arch : Arch
deriving DecidableEq

/-- The fields of `quickget_core::data_structures::OS` that creation.rs
reads: `pretty_name`, `homepage` and `releases`. -/
structure OS where
  pretty_name : String
  homepage : Option String
  releases : List Config
deriving DecidableEq

/-- `itertools`' `.unique()` adapter: drop duplicates, keeping the first
occurrence of each element (insertion order preserved).  `seen` accumulates
the elements already emitted. -/
def uniqueAux {α : Type} [DecidableEq α] (seen : List α) : List α → List α
  | [] => []
  | x :: xs => if x ∈ seen then uniqueAux seen xs else x :: uniqueAux (x :: seen) xs

/-- `.unique()` on a list, first-occurrence order. -/
def unique {α : Type} [DecidableEq α] (l : List α) : List α := uniqueAux [] l

/-- An optional constraint test: `opt.map_or(true, |x| v == Some(x))`, the
shape of the `is_none() || ==` filters in `refresh`. -/
def optMatch {α : Type} [DecidableEq α] (constraint : Option α) (v : Option α) : Bool :=
  match constraint with
  | none => true
  | some x => decide (v = some x)

/-- The arch filter `self.arch.as_ref().map_or(true, |arch| &config.arch == arch)`
(creation.rs lines 70, 88). -/
def archOk (oa : Option Arch) (c : Config) : Bool :=
  match oa with
  | none => true
  | some a => decide (c.arch = a)

/-- creation.rs lines 66-74: the release candidates, filtered by the arch
constraint and by the edition constraint, projected to `release`, deduplicated. -/
def releasesFor (arch : Option Arch) (edition : Option String) (cfg : List Config) :
    List String :=
  unique (((cfg.filter (archOk arch)).filter
      (fun c => optMatch edition c.edition)).filterMap (fun c => c.release))

/-- creation.rs lines 84-92: the edition candidates, filtered by the arch
constraint and by `self.release == config.release` (full `Option` equality),
projected to `edition`, deduplicated.  `refresh` only uses the result when
`release` is `some _`. -/
def editionsAll (arch : Option Arch) (release : Option String) (cfg : List Config) :
    List String :=
  unique (((cfg.filter (archOk arch)).filter
      (fun c => decide (c.release = release))).filterMap (fun c => c.edition))

/-- creation.rs lines 106-117: archs of the records matching the release and
edition constraints, then the fixed universe `[x86_64, aarch64, riscv64]`
filtered to those present. -/
def archsFor (release : Option String) (edition : Option String) (cfg : List Config) :
    List Arch :=
  let full := ((cfg.filter (fun c => optMatch release c.release)).filter
      (fun c => optMatch edition c.edition)).map (fun c => c.arch)
  [Arch.x86_64, Arch.aarch64, Arch.riscv64].filter (fun a => decide (a ∈ full))

/-- `OptionSelection` (creation.rs lines 50-62).  The combo-box
`State<T>` wrappers are modelled by the lists they are built from. -/
structure OptionSelection where
  config_list : List Config
  release_list : List String
  release : Option String
  edition_list : Option (List String)
  edition : Option String
  arch_list : List Arch
  arch : Option Arch
  cpu_cores : Nat
  ram : ℚ
  directory : String
deriving DecidableEq

/-- The release candidates computed at the top of `refresh`
(creation.rs lines 66-74), from the pre-refresh arch and edition. -/
def releasesPass (s : OptionSelection) : List String :=
  releasesFor s.arch s.edition s.config_list

/-- creation.rs lines 76-80: clear `release` when it is no longer among the
fresh candidates. -/
def releaseAfter (s : OptionSelection) : Option String :=
  match s.release with
  | some r => if r ∈ releasesPass s then some r else none
  | none => none

/-- creation.rs lines 83-94 factored over the (already re-filtered) release:
`self.release.as_ref().and((!editions.is_empty()).then_some(editions))`. -/
def editionsFromRel (arch : Option Arch) (cfg : List Config) :
    Option String → Option (List String)
  | some r =>
      if (editionsAll arch (some r) cfg).isEmpty then none
      else some (editionsAll arch (some r) cfg)
  | none => none

/-- The edition candidates computed by `refresh` (creation.rs lines 83-94):
they use the post-clearing `release` and the pre-refresh `arch`, and are the
absent sentinel whenever `release` is unset or the filtered list is empty. -/
def editionsPass (s : OptionSelection) : Option (List String) :=
  editionsFromRel s.arch s.config_list (releaseAfter s)

/-- creation.rs lines 95-103: clear `edition` when the fresh candidate list
is absent or does not contain it. -/
def editionAfter (s : OptionSelection) : Option String :=
  match s.edition, editionsPass s with
  | some e, some l => if e ∈ l then some e else none
  | some _, none => none
  | none, _ => none

/-- creation.rs lines 106-117: the arch candidates, filtered by the
post-clearing release and edition. -/
def archsPass (s : OptionSelection) : List Arch :=
  archsFor (releaseAfter s) (editionAfter s) s.config_list

/-- creation.rs lines 118-122: clear `arch` when it is no longer among the
fresh candidates. -/
def archAfter (s : OptionSelection) : Option Arch :=
  match s.arch with
  | some a => if a ∈ archsPass s then some a else none
  | none => none

/-- `OptionSelection::refresh` (creation.rs lines 65-124), with the
sequential field mutations unrolled into the dataflow the statement order
induces: releases from the pre-state arch/edition, then release clearing,
then editions from the cleared release, then edition clearing, then archs
from the cleared release/edition, then arch clearing. -/
def refresh (s : OptionSelection) : OptionSelection :=
  { s with
    release_list := releasesPass s
    release := releaseAfter s
    edition_list := editionsPass s
    edition := editionAfter s
    arch_list := archsPass s
    arch := archAfter s }

/-- `OptionSelection::set_release` (creation.rs lines 125-128). -/
def set_release (release : String) (s : OptionSelection) : OptionSelection :=
  refresh { s with release := some release }

/-- `OptionSelection::set_edition` (creation.rs lines 129-132). -/
def set_edition (edition : String) (s : OptionSelection) : OptionSelection :=
  refresh { s with edition := some edition }

/-- `OptionSelection::set_arch` (creation.rs lines 133-136). -/
def set_arch (arch : Arch) (s : OptionSelection) : OptionSelection :=
  refresh { s with arch := some arch }

/-- `Page` (creation.rs lines 38-48).  The `Downloading` payload is never
constructed or read by the modelled transitions. -/
inductive Page where
  | loading
  | selectOS
  | optionsPage
  | downloading
  | docker
  | complete
  | error (msg : String)
deriving DecidableEq

/-- `Result<Vec<OS>, String>`, the payload of `Message::OSList`. -/
inductive LoadResult where
  | ok (list : List OS)
  | err (msg : String)
deriving DecidableEq

/-- `Message` (creation.rs lines 24-36). -/
inductive Message where
  | noop
  | osList (res : LoadResult)
  | selectedOS (os : OS)
  | selectedRelease (release : String)
  | selectedEdition (edition : String)
  | selectedArch (arch : Arch)
  | setRAM (ram : ℚ)
  | setCPUCores (cores : Nat)
  | selectVMDir
  | selectedDir (dir : String)
deriving DecidableEq

/-- `Creation` (creation.rs lines 17-22). -/
structure Creation where
  os_list : List OS
  page : Page
  options : Option OptionSelection
deriving DecidableEq

/-- `Creation::new` (creation.rs lines 140-146). -/
def Creation.new : Creation :=
  { os_list := [], page := Page.loading, options := none }

/-- Host-environment inputs read by `update`: `std::env::consts::ARCH`,
the recommended-resource probes, and the current directory. -/
structure Env where
  hostArch : String
  recommendedRamBytes : Nat
  recommendedCpuCores : Nat
  currentDir : String
deriving DecidableEq

/-- creation.rs lines 172-176: map `std::env::consts::ARCH` to an `Arch`,
defaulting to x86_64. -/
def preferredArch (hostArch : String) : Arch :=
  if hostArch = "aarch64" then Arch.aarch64
  else if hostArch = "riscv64" then Arch.riscv64
  else Arch.x86_64

/-- The `OptionSelection` built by the `Message::SelectedOS` branch of
`Creation::update` (creation.rs lines 158-195). -/
def selectedOSOptions (env : Env) (os : OS) : OptionSelection :=
  let rl := unique (os.releases.filterMap (fun c => c.release))
  let al := [Arch.x86_64, Arch.aarch64, Arch.riscv64].filter
      (fun a => os.releases.any (fun c => decide (c.arch = a)))
  let pref := preferredArch env.hostArch
  { config_list := os.releases
    release_list := rl
    release := none
    edition_list := none
    edition := none
    arch_list := al
    arch := if pref ∈ al then some pref else none
    cpu_cores := env.recommendedCpuCores
    ram := (env.recommendedRamBytes : ℚ) / ((1024 : ℚ) * 1024 * 1024)
    directory := env.currentDir }

/-- The one command `update` can emit: the asynchronous directory picker
spawned by `Message::SelectVMDir`. -/
inductive Cmd where
  | pickDirectory
deriving DecidableEq

/-- `Creation::update` (creation.rs lines 147-267).  The returned
`Option Cmd` records whether a `Command::perform` was emitted
(`none` models `Command::none()`). -/
def update (env : Env) (c : Creation) (m : Message) : Creation × Option Cmd :=
  match m with
  | Message.osList (LoadResult.ok l) =>
      ({ c with os_list := l, page := Page.selectOS }, none)
  | Message.osList (LoadResult.err e) =>
      ({ c with page := Page.error e }, none)
  | Message.selectedOS os =>
      ({ c with options := some (selectedOSOptions env os), page := Page.optionsPage }, none)
  | Message.selectedRelease r =>
      ({ c with options := c.options.map (set_release r) }, none)
  | Message.selectedEdition e =>
      ({ c with options := c.options.map (set_edition e) }, none)
  | Message.selectedArch a =>
      ({ c with options := c.options.map (set_arch a) }, none)
  | Message.setRAM q =>
      ({ c with options := c.options.map (fun o => { o with ram := q }) }, none)
  | Message.setCPUCores n =>
      ({ c with options := c.options.map (fun o => { o with cpu_cores := n }) }, none)
  | Message.selectVMDir => (c, some Cmd.pickDirectory)
  | Message.selectedDir d =>
      ({ c with options := c.options.map (fun o => { o with directory := d }) }, none)
  | Message.noop => (c, none)

/-- Fold a sequence of messages through `update`, ignoring emitted commands. -/
def runMessages (env : Env) (c : Creation) (ms : List Message) : Creation :=
  ms.foldl (fun st m => (update env st m).1) c

/-- Modelled from the spec (§4.1):
`editions_for(arch: optional Arch, release: optional string)` — project
`edition` over records matching the arch constraint (if present) and the
release constraint (if present), deduplicate keeping first-seen order, or the
absent sentinel if empty.  Used only to compare the spec's claim against the
code's edition computation. -/
def specEditionsFor (arch : Option Arch) (release : Option String) (cfg : List Config) :
    Option (List String) :=
  let el := unique (((cfg.filter (archOk arch)).filter
      (fun c => optMatch release c.release)).filterMap (fun c => c.edition))
  if el.isEmpty then none else some el

/-- Whether a message's payload respects the resource lower bounds the spec
asserts (1 core, 0.25 GiB); trivially true for all other messages. -/
def payloadOk : Message → Bool
  | Message.setCPUCores n => decide (1 ≤ n)
  | Message.setRAM q => decide ((1 : ℚ)/4 ≤ q)
  | _ => true

/-- Whether the environment's recommended resources respect the bounds. -/
def seedOk (env : Env) : Prop :=
  1 ≤ env.recommendedCpuCores ∧
    (1 : ℚ)/4 ≤ (env.recommendedRamBytes : ℚ) / ((1024 : ℚ) * 1024 * 1024)

/-- The resource bounds, read off a `Creation` state's options when present. -/
def resourcesOk (c : Creation) : Prop :=
  ∀ o, c.options = some o → 1 ≤ o.cpu_cores ∧ (1 : ℚ)/4 ≤ o.ram

/- Concrete sample data used by counterexamples and witnesses. -/

/-- One record carrying a release, an edition and an arch. -/
def cfgA : List Config := [{ release := some "r", edition := some "e", arch := Arch.x86_64 }]

/-- A selection over `cfgA` with nothing set. -/
def sA : OptionSelection :=
  { config_list := cfgA, release_list := [], release := none,
    edition_list := none, edition := none, arch_list := [], arch := none,
    cpu_cores := 1, ram := 1, directory := "" }

/-- A selection over `cfgA` with all three fields set consistently. -/
def sAll : OptionSelection :=
  { config_list := cfgA, release_list := [], release := some "r",
    edition_list := none, edition := some "e", arch_list := [], arch := some Arch.x86_64,
    cpu_cores := 1, ram := 1, directory := "" }

/-- Two records: only `"r1"` carries edition `"e"`. -/
def cfgB : List Config :=
  [{ release := some "r1", edition := some "e", arch := Arch.x86_64 },
   { release := some "r2", edition := none, arch := Arch.x86_64 }]

/-- A selection over `cfgB` with only `edition` set: the first refresh clears
it, leaving the already-computed release list stale. -/
def sB : OptionSelection :=
  { config_list := cfgB, release_list := [], release := none,
    edition_list := none, edition := some "e", arch_list := [], arch := none,
    cpu_cores := 1, ram := 1, directory := "" }

/-- An operating system whose single release `"a"` only exists for x86_64. -/
def osA : OS :=
  { pretty_name := "Alpine", homepage := none,
    releases := [{ release := some "a", edition := none, arch := Arch.x86_64 }] }

/-- A selection over `osA.releases` with nothing set. -/
def sC : OptionSelection :=
  { config_list := osA.releases, release_list := ["a"], release := none,
    edition_list := none, edition := none, arch_list := [Arch.x86_64], arch := none,
    cpu_cores := 1, ram := 1, directory := "" }

/-- An operating system offering one release on all three architectures. -/
def os3 : OS :=
  { pretty_name := "TestOS", homepage := none,
    releases := [{ release := some "r", edition := none, arch := Arch.x86_64 },
                 { release := some "r", edition := none, arch := Arch.aarch64 },
                 { release := some "r", edition := none, arch := Arch.riscv64 }] }

/-- A sample environment: an x86_64 host with 1 GiB recommended RAM. -/
def env0 : Env :=
  { hostArch := "x86_64", recommendedRamBytes := 1073741824,
    recommendedCpuCores := 4, currentDir := "/" }

/-- A sample message sequence ending in a well-bounded CPU-core pick. -/
def ms1 : List Message :=
  [Message.osList (LoadResult.ok [osA]), Message.selectedOS osA, Message.setCPUCores 3]

/-- The options state `ms1` leads to from a fresh `Creation`. -/
def oFin : OptionSelection := { selectedOSOptions env0 osA with cpu_cores := 3 }

/-- A message sequence whose final CPU-core pick violates the spec's bound. -/
def msBad : List Message :=
  [Message.osList (LoadResult.ok [osA]), Message.selectedOS osA, Message.setCPUCores 0]

section Lemmas

/-- Membership in `uniqueAux`: an element is kept iff it occurs in the input
and was not already seen. -/
theorem mem_uniqueAux {α : Type} [DecidableEq α] (l : List α) :
    ∀ (seen : List α) (a : α), a ∈ uniqueAux seen l ↔ a ∈ l ∧ a ∉ seen := by
  induction l with
  | nil => intro seen a; simp [uniqueAux]
  | cons x xs ih =>
      intro seen a
      by_cases hx : x ∈ seen
      · rw [uniqueAux, if_pos hx, ih]
        constructor
        · rintro ⟨h1, h2⟩; exact ⟨List.mem_cons_of_mem _ h1, h2⟩
        · rintro ⟨h1, h2⟩
          rcases List.mem_cons.mp h1 with h | h
          · exact absurd (h ▸ hx) h2
          · exact ⟨h, h2⟩
      · rw [uniqueAux, if_neg hx]
        constructor
        · intro h
          rcases List.mem_cons.mp h with h | h
          · exact ⟨h ▸ List.mem_cons_self x xs, h ▸ hx⟩
          · rcases (ih _ _).mp h with ⟨h1, h2⟩
            refine ⟨List.mem_cons_of_mem _ h1, fun hc => h2 (List.mem_cons_of_mem _ hc)⟩
        · rintro ⟨h1, h2⟩
          rcases List.mem_cons.mp h1 with h | h
          · exact h ▸ List.mem_cons_self x _
          · by_cases hax : a = x
            · exact hax ▸ List.mem_cons_self x _
            · exact List.mem_cons_of_mem _ ((ih _ _).mpr
                ⟨h, fun hc => by
                  rcases List.mem_cons.mp hc with h' | h'
                  · exact hax h'
                  · exact h2 h'⟩)

/-- Membership survives `unique` exactly. -/
theorem mem_unique {α : Type} [DecidableEq α] {l : List α} {a : α} :
    a ∈ unique l ↔ a ∈ l := by
  rw [unique, mem_uniqueAux]; simp

/-- Characterization of `releasesFor` membership. -/
theorem mem_releasesFor {arch : Option Arch} {edition : Option String}
    {cfg : List Config} {r : String} :
    r ∈ releasesFor arch edition cfg ↔
      ∃ c, c ∈ cfg ∧ archOk arch c = true ∧ optMatch edition c.edition = true ∧
        c.release = some r := by
  rw [releasesFor, mem_unique]
  simp only [List.mem_filterMap, List.mem_filter]
  constructor
  · rintro ⟨c, ⟨⟨hc, h1⟩, h2⟩, h3⟩; exact ⟨c, hc, h1, h2, h3⟩
  · rintro ⟨c, hc, h1, h2, h3⟩; exact ⟨c, ⟨⟨hc, h1⟩, h2⟩, h3⟩

/-- Characterization of `editionsAll` membership. -/
theorem mem_editionsAll {arch : Option Arch} {release : Option String}
    {cfg : List Config} {e : String} :
    e ∈ editionsAll arch release cfg ↔
      ∃ c, c ∈ cfg ∧ archOk arch c = true ∧ c.release = release ∧
        c.edition = some e := by
  rw [editionsAll, mem_unique]
  simp only [List.mem_filterMap, List.mem_filter, decide_eq_true_eq]
  constructor
  · rintro ⟨c, ⟨⟨hc, h1⟩, h2⟩, h3⟩; exact ⟨c, hc, h1, h2, h3⟩
  · rintro ⟨c, hc, h1, h2, h3⟩; exact ⟨c, ⟨⟨hc, h1⟩, h2⟩, h3⟩

/-- Characterization of `archsFor` membership. -/
theorem mem_archsFor {release : Option String} {edition : Option String}
    {cfg : List Config} {a : Arch} :
    a ∈ archsFor release edition cfg ↔
      (a ∈ [Arch.x86_64, Arch.aarch64, Arch.riscv64] ∧
        ∃ c, c ∈ cfg ∧ optMatch release c.release = true ∧
          optMatch edition c.edition = true ∧ c.arch = a) := by
  rw [archsFor]
  simp only [List.mem_filter, decide_eq_true_eq, List.mem_map, List.mem_filter]
  constructor
  · rintro ⟨hu, c, ⟨⟨hc, h1⟩, h2⟩, h3⟩; exact ⟨hu, c, hc, h1, h2, h3⟩
  · rintro ⟨hu, c, hc, h1, h2, h3⟩; exact ⟨hu, c, ⟨⟨hc, h1⟩, h2⟩, h3⟩

/-- Every architecture is in the fixed universe list. -/
theorem arch_mem_universe (a : Arch) : a ∈ [Arch.x86_64, Arch.aarch64, Arch.riscv64] := by
  cases a <;> simp

/-- Inversion of the release-clearing step. -/
theorem releaseAfter_eq_some {s : OptionSelection} {r : String} :
    releaseAfter s = some r ↔ s.release = some r ∧ r ∈ releasesPass s := by
  unfold releaseAfter
  cases hs : s.release with
  | none => simp
  | some r0 =>
      by_cases hm : r0 ∈ releasesPass s
      · simp only [hm, if_true, Option.some.injEq]
        constructor
        · intro h; exact ⟨h, h ▸ hm⟩
        · intro h; exact h.1
      · simp only [hm, if_false]
        constructor
        · intro h; exact absurd h (by simp)
        · rintro ⟨h1, h2⟩
          cases h1; exact absurd h2 hm

/-- Inversion of the edition-clearing step. -/
theorem editionAfter_eq_some {s : OptionSelection} {e : String} :
    editionAfter s = some e ↔
      s.edition = some e ∧ ∃ l, editionsPass s = some l ∧ e ∈ l := by
  unfold editionAfter
  cases hs : s.edition with
  | none => simp
  | some e0 =>
      cases hp : editionsPass s with
      | none =>
          simp only [Option.some.injEq]
          constructor
          · intro h; exact absurd h (by simp)
          · rintro ⟨h1, l, h2, h3⟩; exact absurd h2 (by simp)
      | some l =>
          by_cases hm : e0 ∈ l
          · simp only [hm, if_true, Option.some.injEq]
            constructor
            · intro h; exact ⟨h, l, rfl, h ▸ hm⟩
            · intro h; exact h.1
          · simp only [hm, if_false]
            constructor
            · intro h; exact absurd h (by simp)
            · rintro ⟨h1, l2, h2, h3⟩
              cases h1
              rw [Option.some.injEq] at h2
              exact absurd (h2 ▸ h3) hm

/-- Inversion of the arch-clearing step. -/
theorem archAfter_eq_some {s : OptionSelection} {a : Arch} :
    archAfter s = some a ↔ s.arch = some a ∧ a ∈ archsPass s := by
  unfold archAfter
  cases hs : s.arch with
  | none => simp
  | some a0 =>
      by_cases hm : a0 ∈ archsPass s
      · simp only [hm, if_true, Option.some.injEq]
        constructor
        · intro h; exact ⟨h, h ▸ hm⟩
        · intro h; exact h.1
      · simp only [hm, if_false]
        constructor
        · intro h; exact absurd h (by simp)
        · rintro ⟨h1, h2⟩
          cases h1; exact absurd h2 hm

/-- Projections of `refresh`. -/
theorem refresh_release (s : OptionSelection) : (refresh s).release = releaseAfter s := rfl

theorem refresh_release_list (s : OptionSelection) :
    (refresh s).release_list = releasesPass s := rfl

theorem refresh_edition (s : OptionSelection) : (refresh s).edition = editionAfter s := rfl

theorem refresh_edition_list (s : OptionSelection) :
    (refresh s).edition_list = editionsPass s := rfl

theorem refresh_arch (s : OptionSelection) : (refresh s).arch = archAfter s := rfl

theorem refresh_arch_list (s : OptionSelection) : (refresh s).arch_list = archsPass s := rfl

theorem refresh_config_list (s : OptionSelection) :
    (refresh s).config_list = s.config_list := rfl

theorem refresh_cpu_cores (s : OptionSelection) : (refresh s).cpu_cores = s.cpu_cores := rfl

theorem refresh_ram (s : OptionSelection) : (refresh s).ram = s.ram := rfl

theorem refresh_directory (s : OptionSelection) : (refresh s).directory = s.directory := rfl

/-- If `release` is unset, the release-clearing step leaves it unset. -/
theorem releaseAfter_of_none {s : OptionSelection} (h : s.release = none) :
    releaseAfter s = none := by
  unfold releaseAfter
  split
  · rename_i r heq; rw [h] at heq; cases heq
  · rfl

/-- If `edition` is unset, the edition-clearing step leaves it unset. -/
theorem editionAfter_of_none {s : OptionSelection} (h : s.edition = none) :
    editionAfter s = none := by
  unfold editionAfter
  split
  · rename_i e l heq1 heq2; rw [h] at heq1; cases heq1
  · rfl
  · rfl

/-- If the fresh edition candidates are absent, `edition` ends up unset. -/
theorem editionAfter_of_editionsPass_none {s : OptionSelection}
    (h : editionsPass s = none) : editionAfter s = none := by
  unfold editionAfter
  split
  · rename_i e l heq1 heq2; rw [h] at heq2; cases heq2
  · rfl
  · rfl

/-- If `arch` is unset, the arch-clearing step leaves it unset. -/
theorem archAfter_of_none {s : OptionSelection} (h : s.arch = none) :
    archAfter s = none := by
  unfold archAfter
  split
  · rename_i a heq; rw [h] at heq; cases heq
  · rfl

/-- The sample environment's recommended resources satisfy the bounds. -/
theorem env0_seed : seedOk env0 := by
  constructor
  · decide
  · show (1 : ℚ)/4 ≤ (1073741824 : ℚ) / ((1024 : ℚ) * 1024 * 1024)
    norm_num

end Lemmas

/-- C1: After every call to refresh, invariants 1-3 hold on the resulting
SelectionState: if release is set it appears in release_choices (otherwise it
is None); if edition is set then edition_choices is present and contains it;
if arch is set it appears in arch_choices. -/
theorem refresh_invariants (s : OptionSelection) :
    (∀ r, (refresh s).release = some r → r ∈ (refresh s).release_list) ∧
    (∀ e, (refresh s).edition = some e →
      ∃ l, (refresh s).edition_list = some l ∧ e ∈ l) ∧
    (∀ a, (refresh s).arch = some a → a ∈ (refresh s).arch_list) := by
  refine ⟨?_, ?_, ?_⟩
  · intro r h
    rw [refresh_release] at h
    rw [refresh_release_list]
    exact (releaseAfter_eq_some.mp h).2
  · intro e h
    rw [refresh_edition] at h
    rw [refresh_edition_list]
    exact (editionAfter_eq_some.mp h).2
  · intro a h
    rw [refresh_arch] at h
    rw [refresh_arch_list]
    exact (archAfter_eq_some.mp h).2

/-- Witness for C1 at a concrete state where all three fields survive. -/
theorem refresh_invariants_witness :
    "r" ∈ (refresh sAll).release_list ∧
    (∃ l, (refresh sAll).edition_list = some l ∧ "e" ∈ l) ∧
    Arch.x86_64 ∈ (refresh sAll).arch_list :=
  ⟨(refresh_invariants sAll).1 "r" (by decide),
   (refresh_invariants sAll).2.1 "e" (by decide),
   (refresh_invariants sAll).2.2 Arch.x86_64 (by decide)⟩

/-- C6: refresh never produces an empty edition list — `edition_choices` is
either absent or nonempty — and a catalog whose matching records all lack an
edition yields the absent sentinel. -/
theorem refresh_edition_absent_not_empty (s : OptionSelection) :
    ((refresh s).edition_list.elim True (fun l => 0 < l.length)) ∧
    ((∀ c ∈ s.config_list, c.edition = none) → (refresh s).edition_list = none) := by
  constructor
  · rw [refresh_edition_list]
    unfold editionsPass
    cases hr : releaseAfter s with
    | none => exact trivial
    | some r =>
        show ((if (editionsAll s.arch (some r) s.config_list).isEmpty = true then none
            else some (editionsAll s.arch (some r) s.config_list)).elim
          True fun l => 0 < l.length)
        by_cases he : (editionsAll s.arch (some r) s.config_list).isEmpty = true
        · rw [if_pos he]; exact trivial
        · rw [if_neg he]
          show 0 < (editionsAll s.arch (some r) s.config_list).length
          refine List.length_pos.mpr (fun hnil => he ?_)
          rw [hnil]; rfl
  · intro h
    rw [refresh_edition_list]
    unfold editionsPass
    cases hr : releaseAfter s with
    | none => rfl
    | some r =>
        show (if (editionsAll s.arch (some r) s.config_list).isEmpty = true then none
            else some (editionsAll s.arch (some r) s.config_list)) = none
        have hnil : editionsAll s.arch (some r) s.config_list = [] := by
          refine List.eq_nil_iff_forall_not_mem.mpr (fun e he => ?_)
          obtain ⟨c, hc, _, _, hedit⟩ := mem_editionsAll.mp he
          rw [h c hc] at hedit
          cases hedit
        rw [hnil]
        rfl

/-- Witness for C6 at a catalog whose records all lack an edition. -/
theorem refresh_edition_absent_not_empty_witness :
    (refresh sC).edition_list = none :=
  (refresh_edition_absent_not_empty sC).2 (by decide)

/-- C7: every arch_choices computation — in refresh and at OS selection — is
the fixed sequence [x86_64, aarch64, riscv64] filtered to the architectures
present in the matching record set, preserving that fixed order. -/
theorem arch_choices_fixed_order (s : OptionSelection) (env : Env) (os : OS) :
    List.Sublist (refresh s).arch_list [Arch.x86_64, Arch.aarch64, Arch.riscv64] ∧
    (∀ a, a ∈ (refresh s).arch_list ↔
      ∃ c, c ∈ s.config_list ∧ optMatch (refresh s).release c.release = true ∧
        optMatch (refresh s).edition c.edition = true ∧ c.arch = a) ∧
    List.Sublist (selectedOSOptions env os).arch_list
      [Arch.x86_64, Arch.aarch64, Arch.riscv64] ∧
    (∀ a, a ∈ (selectedOSOptions env os).arch_list ↔
      ∃ c, c ∈ os.releases ∧ c.arch = a) := by
  refine ⟨?_, ?_, ?_, ?_⟩
  · exact List.filter_sublist _
  · intro a
    rw [refresh_arch_list, refresh_release, refresh_edition]
    unfold archsPass
    rw [mem_archsFor]
    constructor
    · rintro ⟨_, c, hc, h1, h2, h3⟩; exact ⟨c, hc, h1, h2, h3⟩
    · rintro ⟨c, hc, h1, h2, h3⟩; exact ⟨arch_mem_universe a, c, hc, h1, h2, h3⟩
  · exact List.filter_sublist _
  · intro a
    show a ∈ ([Arch.x86_64, Arch.aarch64, Arch.riscv64].filter
        (fun a => os.releases.any (fun c => decide (c.arch = a)))) ↔ _
    rw [List.mem_filter]
    simp only [List.any_eq_true, decide_eq_true_eq]
    constructor
    · rintro ⟨_, c, hc, h⟩; exact ⟨c, hc, h⟩
    · rintro ⟨c, hc, h⟩; exact ⟨arch_mem_universe a, c, hc, h⟩

/-- C8: refresh leaves cpu_cores, ram, directory and config_list unchanged. -/
theorem refresh_frame (s : OptionSelection) :
    (refresh s).cpu_cores = s.cpu_cores ∧ (refresh s).ram = s.ram ∧
    (refresh s).directory = s.directory ∧ (refresh s).config_list = s.config_list :=
  ⟨rfl, rfl, rfl, rfl⟩

/-- C10: a failed catalog load sets the page to Error with the message
verbatim and changes nothing else; a successful load stores the list and
moves to SelectOS; neither branch emits a command (no retry). -/
theorem osList_transitions (env : Env) (c : Creation) (e : String) (l : List OS) :
    update env c (Message.osList (LoadResult.err e)) =
      ({ c with page := Page.error e }, none) ∧
    update env c (Message.osList (LoadResult.ok l)) =
      ({ c with os_list := l, page := Page.selectOS }, none) :=
  ⟨rfl, rfl⟩

/-- C2 counterexample: with no field set over a catalog offering edition
`"e"`, refresh leaves `edition_list` absent while the spec's
`editions_for(arch, release)` (release constraint optional) yields
`some ["e"]`; and with a stale edition cleared during the pass, the final
`release_list` differs from the projection at the post-refresh fields. -/
theorem choice_lists_divergence_cex :
    (refresh sA).edition_list = none ∧
    specEditionsFor sA.arch sA.release sA.config_list = some ["e"] ∧
    (refresh sB).release_list = ["r1"] ∧
    releasesFor (refresh sB).arch (refresh sB).edition (refresh sB).config_list
      = ["r1", "r2"] :=
  ⟨by decide, by decide, by decide, by decide⟩

/-- C2 amended: release_choices is derived from the pre-refresh arch and
edition (never from release); edition_choices equals the spec's
editions_for(arch, release) only once the re-filtered release is set, and is
the absent sentinel whenever release ends up unset; arch_choices is derived
from the post-cascade release and edition (never from arch). -/
theorem refresh_choice_lists (s : OptionSelection) :
    (refresh s).release_list = releasesFor s.arch s.edition s.config_list ∧
    (∀ r, (refresh s).release = some r →
      (refresh s).edition_list = specEditionsFor s.arch (some r) s.config_list) ∧
    ((refresh s).release = none → (refresh s).edition_list = none) ∧
    (refresh s).arch_list =
      archsFor (refresh s).release (refresh s).edition s.config_list := by
  refine ⟨rfl, ?_, ?_, rfl⟩
  · intro r h
    rw [refresh_release] at h
    rw [refresh_edition_list]
    unfold editionsPass
    rw [h]
    rfl
  · intro h
    rw [refresh_release] at h
    rw [refresh_edition_list]
    unfold editionsPass
    rw [h]
    rfl

/-- Witness for C2 amended at concrete states with release set and unset. -/
theorem refresh_choice_lists_witness :
    (refresh sAll).edition_list = specEditionsFor sAll.arch (some "r") sAll.config_list ∧
    (refresh sA).edition_list = none :=
  ⟨(refresh_choice_lists sAll).2.1 "r" (by decide),
   (refresh_choice_lists sA).2.2.1 (by decide)⟩

/-- C3 counterexample: setting a release that is not among the filtered
candidates is cleared by the very refresh its setter invokes, and setting an
edition while release is unset is always cleared. -/
theorem setter_cleared_cex :
    (set_release "b" sC).release = none ∧ (set_edition "x" sC).edition = none :=
  ⟨by decide, by decide⟩

/-- C3 amended: the just-changed field is itself re-filtered by the refresh
its setter invokes: the new release survives iff it is in
releases_for(arch, edition); a new edition is always cleared when release is
unset and survives when a record matches arch, the set release and the new
edition; a new arch survives when a record carries it and matches the
currently-set release and edition. -/
theorem setter_refilters :
    (∀ (s : OptionSelection) (r : String),
      (set_release r s).release = some r ↔
        r ∈ releasesFor s.arch s.edition s.config_list) ∧
    (∀ (s : OptionSelection) (e : String),
      s.release = none → (set_edition e s).edition = none) ∧
    (∀ (s : OptionSelection) (e r : String) (c : Config),
      s.release = some r → c ∈ s.config_list → archOk s.arch c = true →
      c.edition = some e → c.release = some r →
      (set_edition e s).edition = some e) ∧
    (∀ (s : OptionSelection) (a : Arch) (c : Config),
      c ∈ s.config_list → c.arch = a → optMatch s.release c.release = true →
      optMatch s.edition c.edition = true →
      (set_arch a s).arch = some a) := by
  refine ⟨?_, ?_, ?_, ?_⟩
  · intro s r
    rw [set_release, refresh_release, releaseAfter_eq_some]
    constructor
    · rintro ⟨_, h2⟩; exact h2
    · intro h; exact ⟨rfl, h⟩
  · intro s e h
    rw [set_edition, refresh_edition]
    apply editionAfter_of_editionsPass_none
    unfold editionsPass
    rw [@releaseAfter_of_none { s with edition := some e } h]
    rfl
  · intro s e r c hrel hc harch hced hcr
    rw [set_edition, refresh_edition]
    have hra : releaseAfter { s with edition := some e } = some r := by
      refine releaseAfter_eq_some.mpr ⟨hrel, ?_⟩
      show r ∈ releasesFor s.arch (some e) s.config_list
      refine mem_releasesFor.mpr ⟨c, hc, harch, ?_, hcr⟩
      show decide (c.edition = some e) = true
      exact decide_eq_true hced
    have he2 : e ∈ editionsAll s.arch (some r) s.config_list :=
      mem_editionsAll.mpr ⟨c, hc, harch, hcr, hced⟩
    have hne : ¬ (editionsAll s.arch (some r) s.config_list).isEmpty = true := by
      intro hemp
      rw [List.isEmpty_iff] at hemp
      rw [hemp] at he2
      cases he2
    have hep : editionsPass { s with edition := some e }
        = some (editionsAll s.arch (some r) s.config_list) := by
      unfold editionsPass
      rw [hra]
      show (if (editionsAll s.arch (some r) s.config_list).isEmpty = true then none
          else some (editionsAll s.arch (some r) s.config_list))
        = some (editionsAll s.arch (some r) s.config_list)
      rw [if_neg hne]
    exact editionAfter_eq_some.mpr ⟨rfl, _, hep, he2⟩
  · intro s a c hc hca hrelm hedm
    rw [set_arch, refresh_arch]
    have harch : archOk (some a) c = true := by
      show decide (c.arch = a) = true
      exact decide_eq_true hca
    have key : ∀ s2 : OptionSelection, s2.config_list = s.config_list →
        s2.release = s.release → s2.edition = s.edition → s2.arch = some a →
        archAfter s2 = some a := by
      intro s2 hcfg hrel hed harch2
      have hra0 : ∀ r : String, s.release = some r → releaseAfter s2 = some r := by
        intro r hs
        have hcrel : c.release = some r :=
          of_decide_eq_true (by rw [hs] at hrelm; exact hrelm)
        refine releaseAfter_eq_some.mpr ⟨by rw [hrel, hs], ?_⟩
        show r ∈ releasesFor s2.arch s2.edition s2.config_list
        rw [harch2, hed, hcfg]
        exact mem_releasesFor.mpr ⟨c, hc, harch, hedm, hcrel⟩
      have hrelA : optMatch (releaseAfter s2) c.release = true := by
        cases hs : s.release with
        | none =>
            rw [@releaseAfter_of_none s2 (by rw [hrel, hs])]
            rfl
        | some r =>
            have hcrel : c.release = some r :=
              of_decide_eq_true (by rw [hs] at hrelm; exact hrelm)
            rw [hra0 r hs]
            show decide (c.release = some r) = true
            exact decide_eq_true hcrel
      have hedA : optMatch (editionAfter s2) c.edition = true := by
        cases ht : s.edition with
        | none =>
            rw [@editionAfter_of_none s2 (by rw [hed, ht])]
            rfl
        | some e =>
            have hced : c.edition = some e :=
              of_decide_eq_true (by rw [ht] at hedm; exact hedm)
            cases hs : s.release with
            | none =>
                have hpn : editionsPass s2 = none := by
                  unfold editionsPass
                  rw [@releaseAfter_of_none s2 (by rw [hrel, hs])]
                  rfl
                rw [@editionAfter_of_editionsPass_none s2 hpn]
                rfl
            | some r =>
                have hcrel : c.release = some r :=
                  of_decide_eq_true (by rw [hs] at hrelm; exact hrelm)
                have he2 : e ∈ editionsAll (some a) (some r) s.config_list :=
                  mem_editionsAll.mpr ⟨c, hc, harch, hcrel, hced⟩
                have hne : ¬ (editionsAll (some a) (some r) s.config_list).isEmpty = true := by
                  intro hemp
                  rw [List.isEmpty_iff] at hemp
                  rw [hemp] at he2
                  cases he2
                have hep : editionsPass s2
                    = some (editionsAll (some a) (some r) s.config_list) := by
                  unfold editionsPass
                  rw [hra0 r hs, harch2, hcfg]
                  show (if (editionsAll (some a) (some r) s.config_list).isEmpty = true
                      then none else some (editionsAll (some a) (some r) s.config_list))
                    = some (editionsAll (some a) (some r) s.config_list)
                  rw [if_neg hne]
                have heA : editionAfter s2 = some e :=
                  editionAfter_eq_some.mpr ⟨by rw [hed, ht], _, hep, he2⟩
                rw [heA]
                show decide (c.edition = some e) = true
                exact decide_eq_true hced
      refine archAfter_eq_some.mpr ⟨harch2, ?_⟩
      show a ∈ archsFor (releaseAfter s2) (editionAfter s2) s2.config_list
      rw [hcfg]
      exact mem_archsFor.mpr ⟨arch_mem_universe a, c, hc, hrelA, hedA, hca⟩
    exact key { s with arch := some a } rfl rfl rfl rfl

/-- Witness for C3 amended at concrete states for all four clauses. -/
theorem setter_refilters_witness :
    (set_release "r" sA).release = some "r" ∧
    (set_edition "zz" sC).edition = none ∧
    (set_edition "e" sAll).edition = some "e" ∧
    (set_arch Arch.x86_64 sAll).arch = some Arch.x86_64 :=
  ⟨(setter_refilters.1 sA "r").mpr (by decide),
   setter_refilters.2.1 sC "zz" (by decide),
   setter_refilters.2.2.1 sAll "e" "r"
     { release := some "r", edition := some "e", arch := Arch.x86_64 }
     (by decide) (by decide) (by decide) (by decide) (by decide),
   setter_refilters.2.2.2 sAll Arch.x86_64
     { release := some "r", edition := some "e", arch := Arch.x86_64 }
     (by decide) (by decide) (by decide) (by decide)⟩

/-- C4 counterexample: over `cfgB`, with a stale edition cleared during the
first pass, a second refresh widens `release_list`, so the two states differ. -/
theorem refresh_not_idempotent_cex :
    (refresh sB).release_list = ["r1"] ∧
    (refresh (refresh sB)).release_list = ["r1", "r2"] ∧
    refresh (refresh sB) ≠ refresh sB :=
  ⟨by decide, by decide, by decide⟩

/-- C4 amended: refresh is idempotent whenever its pass clears neither
edition nor arch (clearing release alone is fully propagated within the
pass); in general a cleared edition or arch leaves earlier lists stale and a
second refresh differs. -/
theorem refresh_idempotent_of_stable (s : OptionSelection)
    (he : (refresh s).edition = s.edition) (ha : (refresh s).arch = s.arch) :
    refresh (refresh s) = refresh s := by
  rw [refresh_edition] at he
  rw [refresh_arch] at ha
  have h1 : releasesPass (refresh s) = (refresh s).release_list := by
    rw [refresh_release_list]
    unfold releasesPass
    rw [refresh_config_list, refresh_arch, refresh_edition, ha, he]
  have h2 : releaseAfter (refresh s) = (refresh s).release := by
    cases hr : releaseAfter s with
    | none =>
        have h0 : (refresh s).release = none := by rw [refresh_release, hr]
        rw [@releaseAfter_of_none (refresh s) h0, h0]
    | some r =>
        have h0 : (refresh s).release = some r := by rw [refresh_release, hr]
        have hmem : r ∈ releasesPass s := (releaseAfter_eq_some.mp hr).2
        have hstep : releaseAfter (refresh s) = some r := by
          refine releaseAfter_eq_some.mpr ⟨h0, ?_⟩
          rw [h1, refresh_release_list]
          exact hmem
        rw [hstep, h0]
  have h3 : editionsPass (refresh s) = (refresh s).edition_list := by
    rw [refresh_edition_list]
    unfold editionsPass
    rw [refresh_config_list, refresh_arch, ha, h2, refresh_release]
  have h4 : editionAfter (refresh s) = (refresh s).edition := by
    cases hed : s.edition with
    | none =>
        have h0 : (refresh s).edition = none := by rw [refresh_edition, he, hed]
        rw [@editionAfter_of_none (refresh s) h0, h0]
    | some e =>
        have h0 : (refresh s).edition = some e := by rw [refresh_edition, he, hed]
        obtain ⟨l, hl, hel⟩ := (editionAfter_eq_some.mp (he.trans hed)).2
        have hstep : editionAfter (refresh s) = some e := by
          refine editionAfter_eq_some.mpr ⟨h0, l, ?_, hel⟩
          rw [h3, refresh_edition_list]
          exact hl
        rw [hstep, h0]
  have h5 : archsPass (refresh s) = (refresh s).arch_list := by
    rw [refresh_arch_list]
    unfold archsPass
    rw [refresh_config_list, h2, refresh_release, h4, refresh_edition]
  have h6 : archAfter (refresh s) = (refresh s).arch := by
    cases harc : s.arch with
    | none =>
        have h0 : (refresh s).arch = none := by rw [refresh_arch, ha, harc]
        rw [@archAfter_of_none (refresh s) h0, h0]
    | some a =>
        have h0 : (refresh s).arch = some a := by rw [refresh_arch, ha, harc]
        have hmem : a ∈ archsPass s := (archAfter_eq_some.mp (ha.trans harc)).2
        have hstep : archAfter (refresh s) = some a := by
          refine archAfter_eq_some.mpr ⟨h0, ?_⟩
          rw [h5, refresh_arch_list]
          exact hmem
        rw [hstep, h0]
  show ({ refresh s with
      release_list := releasesPass (refresh s)
      release := releaseAfter (refresh s)
      edition_list := editionsPass (refresh s)
      edition := editionAfter (refresh s)
      arch_list := archsPass (refresh s)
      arch := archAfter (refresh s) } : OptionSelection) = refresh s
  rw [h1, h2, h3, h4, h5, h6]

/-- Witness for C4 amended at a state whose refresh clears nothing. -/
theorem refresh_idempotent_of_stable_witness :
    refresh (refresh sA) = refresh sA :=
  refresh_idempotent_of_stable sA (by decide) (by decide)

/-- C5 counterexample: selecting an OS that offers the host's architecture
presets `arch` to it instead of leaving it None — for every possible host
mapping (x86_64, aarch64, riscv64). -/
theorem selectedOS_arch_preset_cex :
    ((update { env0 with hostArch := "x86_64" } Creation.new
        (Message.selectedOS os3)).1.options.map (fun o => o.arch))
      = some (some Arch.x86_64) ∧
    ((update { env0 with hostArch := "aarch64" } Creation.new
        (Message.selectedOS os3)).1.options.map (fun o => o.arch))
      = some (some Arch.aarch64) ∧
    ((update { env0 with hostArch := "riscv64" } Creation.new
        (Message.selectedOS os3)).1.options.map (fun o => o.arch))
      = some (some Arch.riscv64) :=
  ⟨rfl, rfl, rfl⟩

/-- C5 amended: SelectedOS replaces the whole options state, independent of
the previous state: release and edition are None, edition_choices is absent,
the lists are rebuilt solely from the new OS's records, and arch is preset to
the host's preferred architecture exactly when it occurs in the new
arch_choices (None otherwise). -/
theorem selectedOS_fresh_state (env : Env) (c : Creation) (os : OS) :
    update env c (Message.selectedOS os) =
      ({ c with
          options := some (selectedOSOptions env os)
          page := Page.optionsPage }, none) ∧
    (selectedOSOptions env os).release = none ∧
    (selectedOSOptions env os).edition = none ∧
    (selectedOSOptions env os).edition_list = none ∧
    (selectedOSOptions env os).config_list = os.releases ∧
    (selectedOSOptions env os).release_list
      = unique (os.releases.filterMap (fun cg => cg.release)) ∧
    (selectedOSOptions env os).arch_list
      = [Arch.x86_64, Arch.aarch64, Arch.riscv64].filter
          (fun a => os.releases.any (fun cg => decide (cg.arch = a))) ∧
    (selectedOSOptions env os).arch
      = (if preferredArch env.hostArch ∈ (selectedOSOptions env os).arch_list
          then some (preferredArch env.hostArch) else none) :=
  ⟨rfl, rfl, rfl, rfl, rfl, rfl, rfl, rfl⟩

/-- C9 counterexample: a SetCPUCores message with payload 0 is stored
verbatim, violating the claimed cpu_cores ≥ 1 invariant. -/
theorem cpu_cores_unclamped_cex :
    (runMessages env0 Creation.new msBad).options.map (fun o => o.cpu_cores)
      = some 0 := rfl

/-- One update step preserves the resource bounds when the environment seeds
and the message payload respect them. -/
theorem update_preserves_resources (env : Env) (c : Creation) (m : Message)
    (hseed : seedOk env) (hm : payloadOk m = true) (hc : resourcesOk c) :
    resourcesOk (update env c m).1 := by
  cases m with
  | noop => exact hc
  | osList res =>
      cases res with
      | ok l => intro o ho; exact hc o ho
      | err e => intro o ho; exact hc o ho
  | selectedOS os =>
      intro o ho
      have ho2 : some (selectedOSOptions env os) = some o := ho
      injection ho2 with h
      subst h
      exact ⟨hseed.1, hseed.2⟩
  | selectedRelease r =>
      intro o ho
      have ho2 : c.options.map (set_release r) = some o := ho
      rw [Option.map_eq_some'] at ho2
      obtain ⟨o0, h0, ho0⟩ := ho2
      subst ho0
      exact hc o0 h0
  | selectedEdition e =>
      intro o ho
      have ho2 : c.options.map (set_edition e) = some o := ho
      rw [Option.map_eq_some'] at ho2
      obtain ⟨o0, h0, ho0⟩ := ho2
      subst ho0
      exact hc o0 h0
  | selectedArch a =>
      intro o ho
      have ho2 : c.options.map (set_arch a) = some o := ho
      rw [Option.map_eq_some'] at ho2
      obtain ⟨o0, h0, ho0⟩ := ho2
      subst ho0
      exact hc o0 h0
  | setRAM q =>
      intro o ho
      have ho2 : c.options.map (fun o2 => { o2 with ram := q }) = some o := ho
      rw [Option.map_eq_some'] at ho2
      obtain ⟨o0, h0, ho0⟩ := ho2
      subst ho0
      exact ⟨(hc o0 h0).1, of_decide_eq_true hm⟩
  | setCPUCores n =>
      intro o ho
      have ho2 : c.options.map (fun o2 => { o2 with cpu_cores := n }) = some o := ho
      rw [Option.map_eq_some'] at ho2
      obtain ⟨o0, h0, ho0⟩ := ho2
      subst ho0
      exact ⟨of_decide_eq_true hm, (hc o0 h0).2⟩
  | selectVMDir => intro o ho; exact hc o ho
  | selectedDir d =>
      intro o ho
      have ho2 : c.options.map (fun o2 => { o2 with directory := d }) = some o := ho
      rw [Option.map_eq_some'] at ho2
      obtain ⟨o0, h0, ho0⟩ := ho2
      subst ho0
      exact hc o0 h0

/-- Folding any bound-respecting message sequence preserves the bounds. -/
theorem runMessages_resources (env : Env) (hseed : seedOk env) :
    ∀ (ms : List Message) (c : Creation), (∀ m ∈ ms, payloadOk m = true) →
      resourcesOk c → resourcesOk (runMessages env c ms) := by
  intro ms
  induction ms with
  | nil => intro c _ hc; exact hc
  | cons m rest ih =>
      intro c hmsgs hc
      exact ih (update env c m).1
        (fun m2 h2 => hmsgs m2 (List.mem_cons_of_mem _ h2))
        (update_preserves_resources env c m hseed (hmsgs m (List.mem_cons_self _ _)) hc)

/-- C9 amended: update stores SetCPUCores and SetRAM payloads verbatim with
no clamping; cpu_cores ≥ 1 and ram ≥ 0.25 hold after any message sequence
only under the hypothesis that the environment seeds and every such payload
already satisfy those bounds (in the UI the sliders enforce them). -/
theorem resources_bounded (env : Env) (ms : List Message) (c : Creation)
    (hseed : seedOk env) (hmsgs : ∀ m ∈ ms, payloadOk m = true)
    (hc : resourcesOk c) : resourcesOk (runMessages env c ms) :=
  runMessages_resources env hseed ms c hmsgs hc

/-- Witness for C9 amended on a concrete bound-respecting run. -/
theorem resources_bounded_witness :
    1 ≤ oFin.cpu_cores ∧ (1 : ℚ)/4 ≤ oFin.ram :=
  resources_bounded env0 ms1 Creation.new env0_seed (by decide)
    (fun o ho => Option.noConfusion ho) oFin rfl

end QERSUI
